import Mathlib

/-!
Shallow embedding of the Shenandoah heap-region lifecycle manager
(`src/hotspot/share/gc/shenandoah/shenandoahHeapRegion.hpp`).

Addresses (`HeapWord*`) are modelled as natural numbers counting heap words;
`byte_size(p, q)` is the word distance scaled by `HeapWordSize`.  The region
state enum, the state predicates, the diagnostic ordinal table, the
coalesce-and-fill boundary accessors, `contains`, `increment_age`,
`required_regions` and `requires_humongous` are translated directly from the
header.  The bodies of the `make_*` transition operations, `allocate` and the
live-data accounting live in `shenandoahHeapRegion.cpp` /
`shenandoahHeapRegion.inline.hpp`, which are not part of this tree; those are
modelled from the specification (and from the authoritative state-machine
comment at the top of the header) and are marked as such.
-/

namespace Shenandoah

/-- The per-region state enum, in the declaration order of the C++
`enum RegionState` (`_REGION_STATES_NUM` is a count, not a state). -/
inductive RegionState where
  | _empty_uncommitted
  | _empty_committed
  | _regular
  | _humongous_start
  | _humongous_cont
  | _pinned_humongous_start
  | _cset
  | _pinned
  | _pinned_cset
  | _trash
deriving DecidableEq, Repr, Fintype

open RegionState

/-- The ten region states, listed in declaration order. -/
def allStates : List RegionState :=
  [_empty_uncommitted, _empty_committed, _regular, _humongous_start,
   _humongous_cont, _pinned_humongous_start, _cset, _pinned, _pinned_cset,
   _trash]

/-- Position of a state in the C++ enum declaration (its numeric value as a
C++ enumerator). -/
def enumPosition : RegionState → Nat
  | _empty_uncommitted => 0
  | _empty_committed => 1
  | _regular => 2
  | _humongous_start => 3
  | _humongous_cont => 4
  | _pinned_humongous_start => 5
  | _cset => 6
  | _pinned => 7
  | _pinned_cset => 8
  | _trash => 9

/-- `region_state_to_ordinal`, the switch that protects from accidental
changes in enum order (header, lines 149-165). -/
def region_state_to_ordinal : RegionState → Nat
  | _empty_uncommitted => 0
  | _empty_committed => 1
  | _regular => 2
  | _humongous_start => 3
  | _humongous_cont => 4
  | _cset => 5
  | _pinned => 6
  | _trash => 7
  | _pinned_cset => 8
  | _pinned_humongous_start => 9

/-- `is_empty_state` (header, line 201). -/
def is_empty_state (state : RegionState) : Bool :=
  state == _empty_committed || state == _empty_uncommitted

/-- `is_humongous_start_state` (header, line 202). -/
def is_humongous_start_state (state : RegionState) : Bool :=
  state == _humongous_start || state == _pinned_humongous_start

/-- `is_cset` (header, line 208). -/
def is_cset (cur_state : RegionState) : Bool :=
  cur_state == _cset || cur_state == _pinned_cset

/-- `is_pinned` (header, line 209). -/
def is_pinned (cur_state : RegionState) : Bool :=
  cur_state == _pinned || cur_state == _pinned_cset ||
    cur_state == _pinned_humongous_start

/-- `is_alloc_allowed` (header, line 216). -/
def is_alloc_allowed (cur_state : RegionState) : Bool :=
  is_empty_state cur_state || cur_state == _regular || cur_state == _pinned

/-- `is_stw_move_allowed` (header, line 217); the global flag
`ShenandoahHumongousMoves` is passed as a parameter. -/
def is_stw_move_allowed (shenandoahHumongousMoves : Bool)
    (cur_state : RegionState) : Bool :=
  cur_state == _regular || cur_state == _cset ||
    (shenandoahHumongousMoves && cur_state == _humongous_start)

/-- The legal-transition graph exactly as the edge list of spec section 4.1
gives it (also drawn in the header comment, lines 46-112):
uncommitted and committed empty states commit/uncommit back and forth, a
committed empty region becomes regular or humongous-start, regular regions
may be pinned, put in the collection set or trashed, and so on. -/
def legalEdge : RegionState → RegionState → Bool
  | _empty_uncommitted, _empty_committed => true
  | _empty_committed, _empty_uncommitted => true
  | _empty_committed, _regular => true
  | _empty_committed, _humongous_start => true
  | _regular, _pinned => true
  | _regular, _cset => true
  | _regular, _trash => true
  | _pinned, _regular => true
  | _pinned, _pinned_cset => true
  | _cset, _trash => true
  | _cset, _pinned_cset => true
  | _pinned_cset, _pinned => true
  | _pinned_cset, _trash => true
  | _humongous_start, _pinned_humongous_start => true
  | _humongous_start, _trash => true
  | _pinned_humongous_start, _humongous_start => true
  | _humongous_cont, _trash => true
  | _trash, _empty_committed => true
  | _, _ => false

/-- The same graph as an explicit list of state pairs, used to state that
transition legality is a function of the (from, to) state pair alone. -/
def legalEdgeList : List (RegionState × RegionState) :=
  [(_empty_uncommitted, _empty_committed),
   (_empty_committed, _empty_uncommitted),
   (_empty_committed, _regular),
   (_empty_committed, _humongous_start),
   (_regular, _pinned),
   (_regular, _cset),
   (_regular, _trash),
   (_pinned, _regular),
   (_pinned, _pinned_cset),
   (_cset, _trash),
   (_cset, _pinned_cset),
   (_pinned_cset, _pinned),
   (_pinned_cset, _trash),
   (_humongous_start, _pinned_humongous_start),
   (_humongous_start, _trash),
   (_pinned_humongous_start, _humongous_start),
   (_humongous_cont, _trash),
   (_trash, _empty_committed)]

/-- The spec's 4.1 edge list extended with the one edge its list omits but
the header's own state diagram has (lines 66-75 and 90-91: first allocation
"can go from {Uncommitted, Committed} to {Regular, Humongous}", where the
humongous group contains both the start and the continuation states):
a committed empty region may become a humongous continuation. -/
def legalEdgeExt (a b : RegionState) : Bool :=
  legalEdge a b || (a == _empty_committed && b == _humongous_cont)

/-- Proposition form of `legalEdgeExt`, for reflexive-transitive paths. -/
def EdgeStep (a b : RegionState) : Prop := legalEdgeExt a b = true

/-- The transition operations declared in the header (lines 175-190).
`make_affiliated_maybe` only touches affiliation, not the state, so it is
omitted. -/
inductive TransitionOp where
  | make_regular_allocation
  | make_humongous_start
  | make_humongous_cont
  | make_pinned
  | make_unpinned
  | make_cset
  | make_trash
  | make_trash_immediate
  | make_empty
  | make_uncommitted
  | make_regular_bypass
  | make_humongous_start_bypass
  | make_humongous_cont_bypass
  | make_committed_bypass
deriving DecidableEq, Repr, Fintype

/-- Whether an operation is one of the `*_bypass` variants, which spec
section 4.1 allows to set any state directly during exclusive-access phases.
-/
def TransitionOp.isBypass : TransitionOp → Bool
  | .make_regular_bypass => true
  | .make_humongous_start_bypass => true
  | .make_humongous_cont_bypass => true
  | .make_committed_bypass => true
  | _ => false

/-- Modelled from the spec: the bodies of the `make_*` operations live in
`shenandoahHeapRegion.cpp`, which is not in this tree.  Each operation maps
the current state to the requested state when the spec's state machine
(section 4.1, matching the header's diagram) allows the move, committing an
uncommitted empty region on the way when first allocation starts from
`_empty_uncommitted`; otherwise it returns `none`, standing for the fatal
`report_illegal_transition` which aborts without changing the state.  The
bypass variants set their target state from any current state. -/
def applyTransition : TransitionOp → RegionState → Option RegionState
  | .make_regular_allocation, _empty_uncommitted => some _regular
  | .make_regular_allocation, _empty_committed => some _regular
  | .make_regular_allocation, _ => none
  | .make_humongous_start, _empty_uncommitted => some _humongous_start
  | .make_humongous_start, _empty_committed => some _humongous_start
  | .make_humongous_start, _ => none
  | .make_humongous_cont, _empty_uncommitted => some _humongous_cont
  | .make_humongous_cont, _empty_committed => some _humongous_cont
  | .make_humongous_cont, _ => none
  | .make_pinned, _regular => some _pinned
  | .make_pinned, _cset => some _pinned_cset
  | .make_pinned, _humongous_start => some _pinned_humongous_start
  | .make_pinned, _ => none
  | .make_unpinned, _pinned => some _regular
  | .make_unpinned, _pinned_cset => some _pinned
  | .make_unpinned, _pinned_humongous_start => some _humongous_start
  | .make_unpinned, _ => none
  | .make_cset, _regular => some _cset
  | .make_cset, _ => none
  | .make_trash, _cset => some _trash
  | .make_trash, _ => none
  | .make_trash_immediate, _regular => some _trash
  | .make_trash_immediate, _humongous_start => some _trash
  | .make_trash_immediate, _humongous_cont => some _trash
  | .make_trash_immediate, _ => none
  | .make_empty, _trash => some _empty_committed
  | .make_empty, _ => none
  | .make_uncommitted, _empty_committed => some _empty_uncommitted
  | .make_uncommitted, _ => none
  | .make_regular_bypass, _ => some _regular
  | .make_humongous_start_bypass, _ => some _humongous_start
  | .make_humongous_cont_bypass, _ => some _humongous_cont
  | .make_committed_bypass, _ => some _empty_committed

/-- `HeapWordSize` of a 64-bit HotSpot build: one heap word is 8 bytes. -/
def HeapWordSize : Nat := 8

/-- `byte_size(p, q)`: the byte distance between two `HeapWord*` values,
with addresses counted in words. -/
def byte_size (p q : Nat) : Nat := (q - p) * HeapWordSize

/-- The allocation-request origin kinds of spec section 4.2 (the
`ShenandoahAllocRequest::Type` selector; that header is not in this tree):
general/shared, thread-local buffer, GC-local buffer, promotion-local
buffer. -/
inductive AllocType where
  | shared
  | tlab
  | gclab
  | plab
deriving DecidableEq, Repr, Fintype

/-- The per-region record: the fields of `ShenandoahHeapRegion` (header,
lines 237-269) that the verified operations touch.  `HeapWord*` fields are
word-indexed addresses; `_live_data` is kept in words as in the source, and
`end` is spelled `end_` because `end` is reserved in Lean. -/
structure ShenandoahHeapRegion where
  index : Nat
  bottom : Nat
  end_ : Nat
  state : RegionState
  top : Nat
  live_data : Nat
  coalesce_and_fill_boundary : Nat
  age : Nat
  shared_allocs : Nat
  tlab_allocs : Nat
  gclab_allocs : Nat
  plab_allocs : Nat
deriving DecidableEq, Repr

namespace ShenandoahHeapRegion

/-- `capacity()` (header, line 437). -/
def capacity (r : ShenandoahHeapRegion) : Nat := byte_size r.bottom r.end_

/-- `used()` (header, line 438). -/
def used (r : ShenandoahHeapRegion) : Nat := byte_size r.bottom r.top

/-- `free()` (header, line 440). -/
def free (r : ShenandoahHeapRegion) : Nat := byte_size r.top r.end_

/-- `get_live_data_bytes()`: the live-data word counter scaled to bytes. -/
def get_live_data_bytes (r : ShenandoahHeapRegion) : Nat :=
  r.live_data * HeapWordSize

/-- `contains(p)` (header, lines 443-445): does this region contain this
address? -/
def contains (r : ShenandoahHeapRegion) (p : Nat) : Bool :=
  decide (r.bottom ≤ p) && decide (p < r.top)

/-- `begin_preemptible_coalesce_and_fill()` (header, lines 390-392). -/
def begin_preemptible_coalesce_and_fill
    (r : ShenandoahHeapRegion) : ShenandoahHeapRegion :=
  { r with coalesce_and_fill_boundary := r.bottom }

/-- `end_preemptible_coalesce_and_fill()` (header, lines 394-396). -/
def end_preemptible_coalesce_and_fill
    (r : ShenandoahHeapRegion) : ShenandoahHeapRegion :=
  { r with coalesce_and_fill_boundary := r.end_ }

/-- `suspend_coalesce_and_fill(next_focus)` (header, lines 398-400). -/
def suspend_coalesce_and_fill (r : ShenandoahHeapRegion)
    (next_focus : Nat) : ShenandoahHeapRegion :=
  { r with coalesce_and_fill_boundary := next_focus }

/-- `resume_coalesce_and_fill()` (header, lines 402-404). -/
def resume_coalesce_and_fill (r : ShenandoahHeapRegion) : Nat :=
  r.coalesce_and_fill_boundary

/-- `increment_age()` (header, lines 467-473): `if (_age++ >= max_age)
{ _age = max_age; }` compares the old age against the clamp, then either
clamps or keeps the incremented value.  The clamp `markWord::max_age` is an
external constant (markWord.hpp is not in this tree), passed as a
parameter. -/
def increment_age (max_age age : Nat) : Nat :=
  if age ≥ max_age then max_age else age + 1

/-- `reset_age()` (header, lines 475-478), with the `CENSUS_NOISE` youth
accounting folded in: returns the new `(age, youth)` pair. -/
def reset_age (age youth : Nat) : Nat × Nat := (0, youth + age)

/-- Modelled from the spec: `adjust_alloc_metadata` (declared at header line
447, body in the inline header, not in this tree); spec section 4.2: every
successful allocation updates one of four parallel tallies selected by the
request's origin kind. -/
def adjust_alloc_metadata (type : AllocType) (size : Nat)
    (r : ShenandoahHeapRegion) : ShenandoahHeapRegion :=
  match type with
  | .shared => { r with shared_allocs := r.shared_allocs + size }
  | .tlab => { r with tlab_allocs := r.tlab_allocs + size }
  | .gclab => { r with gclab_allocs := r.gclab_allocs + size }
  | .plab => { r with plab_allocs := r.plab_allocs + size }

/-- Modelled from the spec: `allocate(word_size, req)` (declared at header
line 367, body in the inline header, not in this tree); spec section 4.2:
bump-pointer allocation, legal only when `is_alloc_allowed()`, returning
null — `none` — when `end - top < word_size`, otherwise returning the old
top, advancing top by `word_size` and updating the tally of the request's
kind. -/
def allocate (r : ShenandoahHeapRegion) (word_size : Nat)
    (req : AllocType) : Option (Nat × ShenandoahHeapRegion) :=
  if is_alloc_allowed r.state then
    if r.end_ - r.top < word_size then
      none
    else
      some (r.top,
        adjust_alloc_metadata req word_size { r with top := r.top + word_size })
  else
    none

/-- Modelled from the spec: `clear_live_data()` (declared at header line
369, body in the inline header, not in this tree); spec section 4.2: resets
the live-data counter to zero. -/
def clear_live_data (r : ShenandoahHeapRegion) : ShenandoahHeapRegion :=
  { r with live_data := 0 }

/-- Modelled from the spec: `internal_increase_live_data` (declared at
header line 499, body in the inline header, not in this tree); spec section
3 lists `live_data_bytes ≤ byte_size(bottom, top)` among the invariants that
are fatal to violate, so an addition that would exceed the used portion is
the fatal path, `none`. -/
def internal_increase_live_data (r : ShenandoahHeapRegion)
    (s : Nat) : Option ShenandoahHeapRegion :=
  if (r.live_data + s) * HeapWordSize ≤ used r then
    some { r with live_data := r.live_data + s }
  else
    none

/-- Modelled from the spec: `increase_live_data_alloc_words` (header line
373). -/
def increase_live_data_alloc_words (r : ShenandoahHeapRegion)
    (s : Nat) : Option ShenandoahHeapRegion :=
  internal_increase_live_data r s

/-- Modelled from the spec: `increase_live_data_gc_words` (header line
376). -/
def increase_live_data_gc_words (r : ShenandoahHeapRegion)
    (s : Nat) : Option ShenandoahHeapRegion :=
  internal_increase_live_data r s

/-- Modelled from the spec: `recycle_internal` (declared at header line 168,
body not in this tree); spec section 4.3: the claiming thread moves the
region `trash → empty_committed` and clears its metadata — top reset to
bottom, live data zeroed, age cleared. -/
def recycle_internal (r : ShenandoahHeapRegion) : ShenandoahHeapRegion :=
  { r with state := RegionState._empty_committed,
           top := r.bottom,
           live_data := 0,
           age := 0 }

/-- Modelled from the spec: the state-changing effect of `try_recycle` /
`try_recycle_under_lock` (header lines 386-388, bodies not in this tree)
for the thread that wins the recycling claim: only a trashed region is
recycled. -/
def try_recycle (r : ShenandoahHeapRegion) : Option ShenandoahHeapRegion :=
  if r.state = RegionState._trash then some (recycle_internal r) else none

/-- Modelled from the spec: the constructor
`ShenandoahHeapRegion(start, index, committed)` (header line 272, body not
in this tree); spec section 3: a region is constructed empty, with `top`
at `bottom`, no live data, and committed or uncommitted backing memory. -/
def mkFreshRegion (start index sizeWords : Nat)
    (committed : Bool) : ShenandoahHeapRegion :=
  { index := index,
    bottom := start,
    end_ := start + sizeWords,
    state := if committed then RegionState._empty_committed
             else RegionState._empty_uncommitted,
    top := start,
    live_data := 0,
    coalesce_and_fill_boundary := start,
    age := 0,
    shared_allocs := 0,
    tlab_allocs := 0,
    gclab_allocs := 0,
    plab_allocs := 0 }

end ShenandoahHeapRegion

/-- `required_regions(bytes)` (header, lines 283-285), with the
initialized-once statics `RegionSizeBytes` and `RegionSizeBytesShift`
passed as parameters.  The addition `bytes + region_size_bytes() - 1` is
`size_t` arithmetic, hence reduced modulo `2 ^ 64` before the shift. -/
def required_regions (regionSizeBytes regionSizeBytesShift bytes : Nat) : Nat :=
  ((bytes + regionSizeBytes - 1) % 2 ^ 64) >>> regionSizeBytesShift

/-- `requires_humongous(words)` (header, lines 287-289), with the static
`RegionSizeWords` passed as a parameter. -/
def requires_humongous (regionSizeWords words : Nat) : Bool :=
  words > regionSizeWords

/-- Modelled from the spec: the region-state layout the humongous allocator
produces (spec sections 4.4 and 8; the allocator itself is outside this
header): an object spanning `n` regions occupies one `_humongous_start`
region followed by `n - 1` `_humongous_cont` regions, contiguous by index.
-/
def humongousLayout (n : Nat) : List RegionState :=
  RegionState._humongous_start ::
    List.replicate (n - 1) RegionState._humongous_cont

/-- The operations of the core that touch `top` or the live-data counter,
used to state the bounds invariant of spec section 3 as preservation under
arbitrary operation sequences. -/
inductive RegionOp where
  | alloc (word_size : Nat) (req : AllocType)
  | inc_live_alloc (words : Nat)
  | inc_live_gc (words : Nat)
  | clear_live
  | recycle
  | begin_cf
  | end_cf
  | suspend_cf (next_focus : Nat)
  | incr_age (max_age : Nat)
deriving DecidableEq, Repr

/-- One step of the region lifecycle: `none` is the fatal / null-return
path of the operation, in which case the region is left unchanged. -/
def applyOp : RegionOp → ShenandoahHeapRegion → Option ShenandoahHeapRegion
  | .alloc w k, r => (r.allocate w k).map Prod.snd
  | .inc_live_alloc w, r => r.increase_live_data_alloc_words w
  | .inc_live_gc w, r => r.increase_live_data_gc_words w
  | .clear_live, r => some r.clear_live_data
  | .recycle, r => r.try_recycle
  | .begin_cf, r => some r.begin_preemptible_coalesce_and_fill
  | .end_cf, r => some r.end_preemptible_coalesce_and_fill
  | .suspend_cf p, r => some (r.suspend_coalesce_and_fill p)
  | .incr_age m, r => some { r with age := ShenandoahHeapRegion.increment_age m r.age }

/-- A whole sequence of lifecycle operations, failing as soon as one step
takes the fatal path. -/
def applyOps (ops : List RegionOp) (r : ShenandoahHeapRegion) :
    Option ShenandoahHeapRegion :=
  match ops with
  | [] => some r
  | op :: rest =>
    match applyOp op r with
    | none => none
    | some r2 => applyOps rest r2

/-- The bounds invariant of spec section 3: `bottom ≤ top ≤ end` and
`live_data_bytes ≤ byte_size(bottom, top)`. -/
def RegionInv (r : ShenandoahHeapRegion) : Prop :=
  r.bottom ≤ r.top ∧ r.top ≤ r.end_ ∧
    r.get_live_data_bytes ≤ r.used

instance (r : ShenandoahHeapRegion) : Decidable (RegionInv r) := by
  unfold RegionInv; infer_instance

/-- A concrete regular region used to instantiate theorems: 32 words, 30 of
them already allocated. -/
def sampleRegular : ShenandoahHeapRegion :=
  { index := 0, bottom := 0, end_ := 32, state := RegionState._regular,
    top := 30, live_data := 2, coalesce_and_fill_boundary := 0, age := 0,
    shared_allocs := 0, tlab_allocs := 0, gclab_allocs := 0,
    plab_allocs := 0 }

/-- A concrete freshly constructed committed region. -/
def sampleFresh : ShenandoahHeapRegion :=
  ShenandoahHeapRegion.mkFreshRegion 0 0 32 true

/-- A concrete operation sequence: allocate four words, record four live
words, then clear the live data at the next epoch start. -/
def sampleOps : List RegionOp :=
  [RegionOp.alloc 4 AllocType.shared, RegionOp.inc_live_alloc 4,
   RegionOp.clear_live]

/-- The region `sampleOps` produces from `sampleFresh`. -/
def sampleAfter : ShenandoahHeapRegion :=
  { index := 0, bottom := 0, end_ := 32, state := RegionState._empty_committed,
    top := 4, live_data := 0, coalesce_and_fill_boundary := 0, age := 0,
    shared_allocs := 4, tlab_allocs := 0, gclab_allocs := 0,
    plab_allocs := 0 }

end Shenandoah

namespace Shenandoah

theorem adjust_alloc_metadata_fields (k : AllocType) (w : Nat)
    (r : ShenandoahHeapRegion) :
    (ShenandoahHeapRegion.adjust_alloc_metadata k w r).top = r.top ∧
    (ShenandoahHeapRegion.adjust_alloc_metadata k w r).bottom = r.bottom ∧
    (ShenandoahHeapRegion.adjust_alloc_metadata k w r).end_ = r.end_ ∧
    (ShenandoahHeapRegion.adjust_alloc_metadata k w r).state = r.state ∧
    (ShenandoahHeapRegion.adjust_alloc_metadata k w r).live_data =
      r.live_data := by
  cases k <;> exact ⟨rfl, rfl, rfl, rfl, rfl⟩

theorem allocate_some_shape (r : ShenandoahHeapRegion) (w : Nat)
    (k : AllocType) (p : Nat) (r2 : ShenandoahHeapRegion)
    (h : r.allocate w k = some (p, r2)) :
    is_alloc_allowed r.state = true ∧ w ≤ r.end_ - r.top ∧ p = r.top ∧
    r2.top = r.top + w ∧ r2.bottom = r.bottom ∧ r2.end_ = r.end_ ∧
    r2.state = r.state ∧ r2.live_data = r.live_data := by
  unfold ShenandoahHeapRegion.allocate at h
  split at h
  · rename_i hall
    split at h
    · exact absurd h (by simp)
    · rename_i hlt
      rw [Option.some.injEq, Prod.mk.injEq] at h
      obtain ⟨hp, hr⟩ := h
      subst hp
      subst hr
      cases k <;> exact ⟨hall, by omega, rfl, rfl, rfl, rfl, rfl, rfl⟩
  · exact absurd h (by simp)

theorem applyOp_preserves_inv (op : RegionOp) (r r2 : ShenandoahHeapRegion)
    (hinv : RegionInv r) (h : applyOp op r = some r2) : RegionInv r2 := by
  obtain ⟨h1, h2, h3⟩ := hinv
  cases op with
  | alloc w k =>
    simp only [applyOp] at h
    cases halloc : r.allocate w k with
    | none => rw [halloc] at h; exact absurd h (by simp)
    | some pr =>
      obtain ⟨p, rr⟩ := pr
      rw [halloc] at h
      simp at h
      subst h
      obtain ⟨hall, hw, hp, ht, hb, he, hs, hl⟩ :=
        allocate_some_shape r w k p rr halloc
      unfold ShenandoahHeapRegion.get_live_data_bytes ShenandoahHeapRegion.used
        byte_size HeapWordSize at h3
      refine ⟨?_, ?_, ?_⟩
      · rw [hb, ht]; omega
      · rw [ht, he]; omega
      · unfold ShenandoahHeapRegion.get_live_data_bytes
          ShenandoahHeapRegion.used byte_size HeapWordSize
        rw [hl, ht, hb]
        omega
  | inc_live_alloc w =>
    simp only [applyOp, ShenandoahHeapRegion.increase_live_data_alloc_words,
      ShenandoahHeapRegion.internal_increase_live_data] at h
    split at h
    · rename_i hle
      rw [Option.some.injEq] at h
      subst h
      exact ⟨h1, h2, hle⟩
    · exact absurd h (by simp)
  | inc_live_gc w =>
    simp only [applyOp, ShenandoahHeapRegion.increase_live_data_gc_words,
      ShenandoahHeapRegion.internal_increase_live_data] at h
    split at h
    · rename_i hle
      rw [Option.some.injEq] at h
      subst h
      exact ⟨h1, h2, hle⟩
    · exact absurd h (by simp)
  | clear_live =>
    simp only [applyOp] at h
    rw [Option.some.injEq] at h
    subst h
    refine ⟨h1, h2, ?_⟩
    simp [ShenandoahHeapRegion.clear_live_data,
      ShenandoahHeapRegion.get_live_data_bytes]
  | recycle =>
    simp only [applyOp, ShenandoahHeapRegion.try_recycle] at h
    split at h
    · rw [Option.some.injEq] at h
      subst h
      refine ⟨Nat.le_refl _, Nat.le_trans h1 h2, ?_⟩
      simp [ShenandoahHeapRegion.recycle_internal,
        ShenandoahHeapRegion.get_live_data_bytes]
    · exact absurd h (by simp)
  | begin_cf =>
    simp only [applyOp] at h
    rw [Option.some.injEq] at h
    subst h
    exact ⟨h1, h2, h3⟩
  | end_cf =>
    simp only [applyOp] at h
    rw [Option.some.injEq] at h
    subst h
    exact ⟨h1, h2, h3⟩
  | suspend_cf p =>
    simp only [applyOp] at h
    rw [Option.some.injEq] at h
    subst h
    exact ⟨h1, h2, h3⟩
  | incr_age m =>
    simp only [applyOp] at h
    rw [Option.some.injEq] at h
    subst h
    exact ⟨h1, h2, h3⟩

theorem applyOps_preserves_inv (ops : List RegionOp) :
    ∀ r r2 : ShenandoahHeapRegion, RegionInv r → applyOps ops r = some r2 →
      RegionInv r2 := by
  induction ops with
  | nil =>
    intro r r2 h happ
    unfold applyOps at happ
    rw [Option.some.injEq] at happ
    exact happ ▸ h
  | cons op rest ih =>
    intro r r2 h happ
    unfold applyOps at happ
    cases hstep : applyOp op r with
    | none => rw [hstep] at happ; exact absurd happ (by simp)
    | some rmid =>
      rw [hstep] at happ
      exact ih rmid r2 (applyOp_preserves_inv op r rmid h hstep) happ

/-- Claim C1, counterexample: as stated, the claim quantifies over the
bypass variants too, yet `make_regular_bypass` moves a trash region to
regular even though (trash, regular) is not an edge of the spec 4.1 graph —
the spec itself says bypasses may set any state directly; moreover
`make_humongous_cont` moves a committed empty region to humongous
continuation, an edge the 4.1 list omits (the header diagram has it), and
`make_regular_allocation` from uncommitted empty realizes the pair
(empty_uncommitted, regular), which is a two-edge path, not an edge, so the
operation succeeds rather than aborting on a non-edge pair. -/
theorem transition_claim_counterexample :
    applyTransition TransitionOp.make_regular_bypass RegionState._trash =
      some RegionState._regular ∧
    legalEdge RegionState._trash RegionState._regular = false ∧
    applyTransition TransitionOp.make_humongous_cont
      RegionState._empty_committed = some RegionState._humongous_cont ∧
    legalEdge RegionState._empty_committed RegionState._humongous_cont =
      false ∧
    applyTransition TransitionOp.make_regular_allocation
      RegionState._empty_uncommitted = some RegionState._regular ∧
    legalEdge RegionState._empty_uncommitted RegionState._regular = false := by
  decide

/-- Claim C1, amended: every non-bypass transition operation either moves
the region state along a path of edges of the spec 4.1 graph extended with
the one edge its list omits (empty_committed to humongous_cont, present in
the header's own diagram), or aborts fatally through
`report_illegal_transition` — modelled as `none` — leaving the state
unchanged; the bypass variants are exempt, as spec 4.1 allows them to set
any state directly. -/
theorem transitions_follow_graph (op : TransitionOp)
    (hop : op.isBypass = false) :
    ∀ s t : RegionState, applyTransition op s = some t →
      Relation.ReflTransGen EdgeStep s t := by
  intro s t h
  cases op <;> simp only [TransitionOp.isBypass] at hop <;>
    (try exact Bool.noConfusion hop) <;>
    cases s <;> simp only [applyTransition] at h <;>
    (try exact Option.noConfusion h) <;>
    (rw [Option.some.injEq] at h; subst h) <;>
    first
      | exact Relation.ReflTransGen.single rfl
      | exact Relation.ReflTransGen.tail
          (Relation.ReflTransGen.single
            (show EdgeStep _ RegionState._empty_committed from rfl)) rfl

/-- Claim C1, witness: `make_cset` legally moves a regular region into the
collection set. -/
theorem transitions_follow_graph_witness :
    Relation.ReflTransGen EdgeStep RegionState._regular RegionState._cset :=
  transitions_follow_graph TransitionOp.make_cset rfl
    RegionState._regular RegionState._cset rfl

/-- Claim C2, counterexample: in the `_pinned_cset` state — reachable along
legal edges from a committed empty region — both `is_pinned` and `is_cset`
report true, so a pinned region can be a member of the collection set. -/
theorem pinned_cset_counterexample :
    is_pinned RegionState._pinned_cset = true ∧
    is_cset RegionState._pinned_cset = true ∧
    Relation.ReflTransGen EdgeStep RegionState._empty_committed
      RegionState._pinned_cset :=
  ⟨rfl, rfl,
    Relation.ReflTransGen.tail
      (Relation.ReflTransGen.tail
        (Relation.ReflTransGen.single
          (show EdgeStep RegionState._empty_committed RegionState._regular
            from rfl))
        (show EdgeStep RegionState._regular RegionState._cset from rfl))
      (show EdgeStep RegionState._cset RegionState._pinned_cset from rfl)⟩

/-- Claim C2, amended: the pinned and collection-set predicates hold
together exactly in the `_pinned_cset` evacuation-failure state, and even
there the region may not be moved (`is_stw_move_allowed` is false whether
or not humongous moves are enabled), so a pinned region is still never
relocated. -/
theorem pinned_and_cset_iff_pinned_cset :
    (∀ s : RegionState, (is_pinned s = true ∧ is_cset s = true) ↔
      s = RegionState._pinned_cset) ∧
    (∀ hm : Bool,
      is_stw_move_allowed hm RegionState._pinned_cset = false) := by
  decide

/-- Claim C3: a freshly constructed region satisfies
`bottom ≤ top ≤ end` and `live_data_bytes ≤ byte_size(bottom, top)`, and
every sequence of core operations that completes preserves these bounds. -/
theorem region_bounds_invariant (start index sizeWords : Nat)
    (committed : Bool) (ops : List RegionOp)
    (r r2 : ShenandoahHeapRegion) :
    RegionInv (ShenandoahHeapRegion.mkFreshRegion start index sizeWords
      committed) ∧
    (RegionInv r → applyOps ops r = some r2 → RegionInv r2) := by
  constructor
  · refine ⟨Nat.le_refl _, Nat.le_add_right _ _, ?_⟩
    simp [ShenandoahHeapRegion.mkFreshRegion,
      ShenandoahHeapRegion.get_live_data_bytes]
  · intro h happ
    exact applyOps_preserves_inv ops r r2 h happ

/-- Claim C3, witness: the bounds hold after allocating four words,
recording four live words and clearing the live data on a fresh committed
32-word region. -/
theorem region_bounds_invariant_witness : RegionInv sampleAfter :=
  (region_bounds_invariant 0 0 32 true sampleOps sampleFresh sampleAfter).2
    (by decide) (by decide)

/-- Claim C4: `is_alloc_allowed` holds exactly in the two empty states,
the regular state and the pinned state, and a successful allocation is
only possible in a state where it holds. -/
theorem is_alloc_allowed_spec :
    (∀ s : RegionState, is_alloc_allowed s = true ↔
      (s = RegionState._empty_uncommitted ∨ s = RegionState._empty_committed ∨
       s = RegionState._regular ∨ s = RegionState._pinned)) ∧
    (∀ (r : ShenandoahHeapRegion) (w : Nat) (k : AllocType)
       (res : Nat × ShenandoahHeapRegion),
      r.allocate w k = some res → is_alloc_allowed r.state = true) := by
  constructor
  · decide
  · intro r w k res h
    unfold ShenandoahHeapRegion.allocate at h
    split at h
    · assumption
    · exact absurd h (by simp)

/-- Claim C4, witness: a successful one-word allocation on the sample
regular region shows its state is allocation-allowed. -/
theorem is_alloc_allowed_spec_witness :
    is_alloc_allowed sampleRegular.state = true :=
  is_alloc_allowed_spec.2 sampleRegular 1 AllocType.shared
    (30, { sampleRegular with top := 31, shared_allocs := 1 }) (by decide)

/-- Claim C5: on an allocation-allowed region, `allocate` returns null —
`none`, not a fatal error — whenever the remaining space `end - top` is
smaller than the request, producing no changed region; when the request
fits it returns the old top and a region whose top advanced by exactly
`word_size`, with bounds, state and live data unchanged. -/
theorem allocate_exhaustion_spec (r : ShenandoahHeapRegion) (w : Nat)
    (k : AllocType) (hall : is_alloc_allowed r.state = true) :
    (r.end_ - r.top < w → r.allocate w k = none) ∧
    (w ≤ r.end_ - r.top → ∃ r2 : ShenandoahHeapRegion,
      r.allocate w k = some (r.top, r2) ∧ r2.top = r.top + w ∧
      r2.bottom = r.bottom ∧ r2.end_ = r.end_ ∧ r2.state = r.state ∧
      r2.live_data = r.live_data) := by
  constructor
  · intro hlt
    simp [ShenandoahHeapRegion.allocate, hall, hlt]
  · intro hge
    have hnlt : ¬ (r.end_ - r.top < w) := by omega
    refine ⟨ShenandoahHeapRegion.adjust_alloc_metadata k w
      { r with top := r.top + w }, ?_, ?_, ?_, ?_, ?_, ?_⟩
    · simp [ShenandoahHeapRegion.allocate, hall, hnlt]
    all_goals cases k <;> rfl

/-- Claim C5, witness: a five-word request on the sample region with only
two words free returns null. -/
theorem allocate_exhaustion_spec_witness :
    sampleRegular.allocate 5 AllocType.shared = none :=
  (allocate_exhaustion_spec sampleRegular 5 AllocType.shared (by decide)).1
    (by decide)

/-- Claim C6, counterexample: `required_regions` computes
`(bytes + region_size_bytes - 1) >> shift` in 64-bit `size_t` arithmetic,
so with a 256KB region size and `bytes = 2^64 - 1` the addition wraps and
the result is 0, which is not the ceiling of bytes over the region size
(the true ceiling is `2^46`, and no byte fits in 0 regions). -/
theorem required_regions_counterexample :
    required_regions 262144 18 (2 ^ 64 - 1) = 0 ∧
    required_regions 262144 18 (2 ^ 64 - 1) ≠
      (2 ^ 64 - 1 + 262144 - 1) / 262144 ∧
    ¬ (2 ^ 64 - 1 ≤ 0 * 262144) := by
  decide

/-- Claim C6, amended: whenever `bytes + region_size_bytes - 1` does not
overflow 64-bit `size_t` arithmetic and the region size is the power of
two `2 ^ shift` the geometry setup makes it, `required_regions(bytes)` is
the ceiling of bytes over the region size: it is the least region count
whose total size covers `bytes`.  `requires_humongous(words)` holds exactly
when `words` exceeds the region-size word count, and an 800KB object with
256KB regions needs 4 regions, laid out as one humongous start followed by
three contiguous humongous continuations. -/
theorem required_regions_spec (rsb shift bytes : Nat)
    (h1 : rsb = 2 ^ shift) (h2 : 0 < rsb)
    (h3 : bytes + rsb - 1 < 2 ^ 64) :
    bytes ≤ required_regions rsb shift bytes * rsb ∧
    (∀ m : Nat, bytes ≤ m * rsb → required_regions rsb shift bytes ≤ m) ∧
    (∀ rsw words : Nat, requires_humongous rsw words = true ↔ rsw < words) ∧
    required_regions 262144 18 819200 = 4 ∧
    humongousLayout 4 =
      [RegionState._humongous_start, RegionState._humongous_cont,
       RegionState._humongous_cont, RegionState._humongous_cont] := by
  have hreq : required_regions rsb shift bytes = (bytes + rsb - 1) / rsb := by
    unfold required_regions
    rw [Nat.mod_eq_of_lt h3, Nat.shiftRight_eq_div_pow, ← h1]
  refine ⟨?_, ?_, ?_, by decide, by decide⟩
  · rw [hreq, Nat.mul_comm]
    have hd := Nat.div_add_mod (bytes + rsb - 1) rsb
    have hm : (bytes + rsb - 1) % rsb < rsb := Nat.mod_lt _ h2
    generalize hr : (bytes + rsb - 1) % rsb = q3 at hd hm
    generalize hX : rsb * ((bytes + rsb - 1) / rsb) = X at hd ⊢
    omega
  · intro m hm2
    rw [hreq]
    have hle : bytes + rsb - 1 ≤ rsb - 1 + m * rsb := by
      generalize hY : m * rsb = Y at hm2 ⊢
      omega
    have hstep : (bytes + rsb - 1) / rsb ≤ (rsb - 1 + m * rsb) / rsb :=
      Nat.div_le_div_right hle
    have heq : (rsb - 1 + m * rsb) / rsb = m := by
      rw [Nat.add_mul_div_right _ _ h2, Nat.div_eq_of_lt (by omega)]
      omega
    rw [heq] at hstep
    exact hstep
  · intro rsw words
    simp [requires_humongous]

/-- Claim C6, witness: an 800KB request with 256KB regions is covered by
`required_regions` many regions. -/
theorem required_regions_spec_witness :
    819200 ≤ required_regions 262144 18 819200 * 262144 :=
  (required_regions_spec 262144 18 819200 (by decide) (by decide)
    (by decide)).1

/-- Claim C7: `increment_age` increases the age by exactly one below the
clamp `markWord::max_age`, leaves it at the clamp once reached, and no
sequence of increments starting from age zero ever exceeds the clamp. -/
theorem increment_age_clamped (max_age age : Nat) :
    (age < max_age →
      ShenandoahHeapRegion.increment_age max_age age = age + 1) ∧
    (age = max_age →
      ShenandoahHeapRegion.increment_age max_age age = max_age) ∧
    (∀ n : Nat,
      (ShenandoahHeapRegion.increment_age max_age)^[n] 0 ≤ max_age) := by
  refine ⟨?_, ?_, ?_⟩
  · intro h
    unfold ShenandoahHeapRegion.increment_age
    rw [if_neg (by omega)]
  · intro h
    unfold ShenandoahHeapRegion.increment_age
    rw [if_pos (by omega)]
  · intro n
    have key : ∀ a, a ≤ max_age →
        ShenandoahHeapRegion.increment_age max_age a ≤ max_age := by
      intro a ha
      unfold ShenandoahHeapRegion.increment_age
      split <;> omega
    induction n with
    | zero => exact Nat.zero_le _
    | succ n ih =>
      rw [Function.iterate_succ_apply']
      exact key _ ih

/-- Claim C7, witness: with the HotSpot clamp value 15, an age of 3
increments to 4 and an age of 15 stays 15. -/
theorem increment_age_clamped_witness :
    ShenandoahHeapRegion.increment_age 15 3 = 4 ∧
    ShenandoahHeapRegion.increment_age 15 15 = 15 :=
  ⟨(increment_age_clamped 15 3).1 (by decide),
   (increment_age_clamped 15 15).2.1 rfl⟩

/-- Claim C8: `region_state_to_ordinal` maps the ten region states
injectively onto the ordinals 0..9, the ordinal of at least one state
(`_pinned_humongous_start`: ordinal 9, enum position 5) differs from its
position in the enum declaration, and transition legality is decided by
the (from, to) state pair alone — it coincides with membership in the
explicit edge list, which never consults the ordinal encoding. -/
theorem state_ordinal_diagnostic :
    (∀ s t : RegionState,
      region_state_to_ordinal s = region_state_to_ordinal t → s = t) ∧
    (allStates.map region_state_to_ordinal).Perm (List.range 10) ∧
    region_state_to_ordinal RegionState._pinned_humongous_start = 9 ∧
    enumPosition RegionState._pinned_humongous_start = 5 ∧
    (∀ s t : RegionState,
      legalEdge s t = true ↔ (s, t) ∈ legalEdgeList) := by
  refine ⟨by decide, by decide, rfl, rfl, by decide⟩

/-- Claim C8, witness: injectivity applied at the collection-set state. -/
theorem state_ordinal_diagnostic_witness :
    RegionState._cset = RegionState._cset :=
  state_ordinal_diagnostic.1 RegionState._cset RegionState._cset rfl

/-- Claim C9: the coalesce-and-fill boundary survives suspension exactly —
resuming after `suspend_coalesce_and_fill p` returns `p`, beginning the
preemptible pass puts the boundary at bottom, ending it puts the boundary
at end, and suspension changes no other region bookkeeping. -/
theorem coalesce_boundary_round_trip (r : ShenandoahHeapRegion) (p : Nat) :
    (r.suspend_coalesce_and_fill p).resume_coalesce_and_fill = p ∧
    r.begin_preemptible_coalesce_and_fill.coalesce_and_fill_boundary =
      r.bottom ∧
    r.end_preemptible_coalesce_and_fill.coalesce_and_fill_boundary =
      r.end_ ∧
    (r.suspend_coalesce_and_fill p).top = r.top ∧
    (r.suspend_coalesce_and_fill p).bottom = r.bottom ∧
    (r.suspend_coalesce_and_fill p).state = r.state :=
  ⟨rfl, rfl, rfl, rfl, rfl, rfl⟩

/-- Claim C10: `contains(p)` answers bottom ≤ p < top, so an address in
the unallocated tail `[top, end)` is reported as not contained even though
it lies within the region's address bounds. -/
theorem contains_spec (r : ShenandoahHeapRegion) (p : Nat) :
    (r.contains p = true ↔ (r.bottom ≤ p ∧ p < r.top)) ∧
    (r.top ≤ p → r.contains p = false) := by
  constructor
  · simp [ShenandoahHeapRegion.contains]
  · intro h
    simp [ShenandoahHeapRegion.contains]
    omega

/-- Claim C10, witness: address 30 sits in the unallocated tail [30, 32) of
the sample region and is reported as not contained. -/
theorem contains_spec_witness : sampleRegular.contains 30 = false :=
  (contains_spec sampleRegular 30).2 (by decide)

end Shenandoah
